import Mathlib

/-!
Verification of the skill-scout core (server/nlp_service.py and
attached_assets/app_1767956252310.py) against its natural-language
specification.  Text is modelled as a list of characters; Python floats
are modelled by exact rationals (the decimal constants of the program are
exactly representable, and the specification states the arithmetic
abstractly); Python's `str` operations are translated operation by
operation below.
-/

namespace SkillScout

/-- Text is a list of characters, mirroring Python strings. -/
abbrev Str := List Char

/-- Helper turning a Lean string literal into the character-list model. -/
def chars (s : String) : Str := s.data

/-- Python `s.lower()`, character-wise lower-casing. -/
def toLowerStr (s : Str) : Str := s.map Char.toLower

/-- Python `s.strip()`: remove leading and trailing whitespace
(internal whitespace is kept). -/
def stripStr (s : Str) : Str :=
  ((s.dropWhile Char.isWhitespace).reverse.dropWhile Char.isWhitespace).reverse

/-- Python `s.split()`: split on runs of whitespace, dropping empty pieces. -/
def splitWs (s : Str) : List Str :=
  (List.splitOnP Char.isWhitespace s).filter (fun w => w ≠ [])

/-- Python `s.split(",")`: split on every comma, keeping empty pieces. -/
def splitComma (s : Str) : List Str := List.splitOn ',' s

/-- Fuelled scanner behind `countOcc`; structural recursion on the fuel
keeps the definition kernel-reducible.  Every step consumes at least one
character of the haystack, so fuel equal to the haystack length (as
supplied by `countOcc`) never runs out. -/
def countOccFuel : Nat → Str → Str → Nat
  | _, hay, [] => hay.length + 1
  | _, [], _ :: _ => 0
  | 0, _ :: _, _ :: _ => 0
  | fuel + 1, h :: t, p :: ps =>
    if (p :: ps).isPrefixOf (h :: t) then
      countOccFuel fuel (t.drop ps.length) (p :: ps) + 1
    else
      countOccFuel fuel t (p :: ps)

/-- Python `hay.count(pat)`: number of non-overlapping occurrences of
`pat` in `hay`, scanning left to right (`"aaa".count("aa") == 1`).
For the empty pattern Python returns `len(hay) + 1`. -/
def countOcc (hay pat : Str) : Nat := countOccFuel hay.length hay pat

/-- Python `hay.find(pat)`: index of the first occurrence, `none` when
absent (Python returns -1 there). -/
def firstIdx : Str → Str → Option Nat
  | [], pat => if pat.isPrefixOf ([] : Str) then some 0 else none
  | h :: t, pat =>
    if pat.isPrefixOf (h :: t) then some 0 else (firstIdx t pat).map (· + 1)

/-- Python `pat in hay`: literal substring containment. -/
def containsSub (hay pat : Str) : Bool := (firstIdx hay pat).isSome

/-- Python `s[a:b]` for clamped indices `0 ≤ a ≤ b ≤ len s`. -/
def sliceStr (s : Str) (a b : Nat) : Str := (s.take b).drop a

/-- Python `" ".join(xs)`. -/
def joinSpace (xs : List Str) : Str := List.intercalate [' '] xs

/-- Python string comparison: lexicographic by code point, a proper
prefix sorting first. -/
def strLe : Str → Str → Bool
  | [], _ => true
  | _ :: _, [] => false
  | a :: as, b :: bs => if a < b then true else if b < a then false else strLe as bs

/-- Propositional form of `strLe`, used as the sort relation. -/
def strLeR (a b : Str) : Prop := strLe a b = true

instance : DecidableRel strLeR := fun a b =>
  inferInstanceAs (Decidable (strLe a b = true))

instance : IsTotal Str strLeR where
  total a b := by
    induction a generalizing b with
    | nil => left; rfl
    | cons x xs ih =>
      cases b with
      | nil => right; rfl
      | cons y ys =>
        rcases lt_trichotomy x y with h | h | h
        · left
          simp [strLeR, strLe, h]
        · subst h
          rcases ih ys with h' | h'
          · left; simpa [strLeR, strLe] using h'
          · right; simpa [strLeR, strLe] using h'
        · right
          simp [strLeR, strLe, h]

instance : IsTrans Str strLeR where
  trans a b c hab hbc := by
    induction a generalizing b c with
    | nil => rfl
    | cons x xs ih =>
      cases b with
      | nil => simp [strLeR, strLe] at hab
      | cons y ys =>
        cases c with
        | nil => simp [strLeR, strLe] at hbc
        | cons z zs =>
          simp only [strLeR, strLe] at hab hbc ⊢
          rcases lt_trichotomy x y with hxy | hxy | hxy
          · rcases lt_trichotomy y z with hyz | hyz | hyz
            · simp [lt_trans hxy hyz]
            · subst hyz; simp [hxy]
            · simp [hxy, not_lt_of_gt hxy] at hab
              simp [not_lt_of_gt hyz, hyz] at hbc
          · subst hxy
            rcases lt_trichotomy x z with hyz | hyz | hyz
            · simp [hyz]
            · subst hyz
              simp only [lt_irrefl, if_false] at hab hbc ⊢
              exact ih ys zs hab hbc
            · simp [not_lt_of_gt hyz, hyz] at hbc
          · simp [not_lt_of_gt hxy, hxy] at hab

/-- Python `sorted(set(xs))` on a list of strings: deduplicate, then sort
ascending (insertion sort is a stable comparison sort, extensionally equal
to Python's sort). -/
def sortedSet (l : List Str) : List Str := List.insertionSort strLeR l.dedup

/-- One row of the reference dataset (jobs CSV): role title and the two
raw comma-separated skill fields.  `job_title` is stored lower-cased at
load time (`df["job_title"] = df["job_title"].str.lower()`); the model
re-applies `toLowerStr` at the use sites to inline that load-time
normalisation. -/
structure RefRow where
  job_title : Str
  technical_skills : Str
  soft_skills : Str
  deriving DecidableEq

/-- Server token rule of `nlp_service.get_job_skills`:
`set(s.strip().lower() for s in raw.split(",") if s.strip())` applied to
one raw field, before deduplication: split on comma, keep only tokens that
are non-empty after stripping, strip and lower-case them. -/
def cleanTokens (raw : Str) : List Str :=
  ((splitComma raw).filter (fun s => stripStr s ≠ [])).map
    (fun s => toLowerStr (stripStr s))

/-- Legacy asset token rule of `app.get_job_skills`:
`set(s.strip().lower() for s in raw.split(","))` — identical to
`cleanTokens` except that it has no emptiness filter, so a consecutive,
leading or trailing comma contributes the empty token. -/
def cleanTokensAsset (raw : Str) : List Str :=
  (splitComma raw).map (fun s => toLowerStr (stripStr s))

/-- The matching-row set in the literal-substring sense: rows whose
(lower-cased) title contains the lower-cased role name.  This is the row
selection the specification prescribes and the behaviour the program
exhibits for role names without regex metacharacters.  The program's own
filter, `df[df["job_title"].str.contains(job_role)]`, compiles the role
as a regular expression (pandas default `regex=True`); that behaviour is
modelled faithfully by `get_job_skills_re` below through an explicit
regex capability, and reduces to this literal selection exactly when the
compiled pattern searches literally (`get_job_skills_re_literal`). -/
def matchingRows (rows : List RefRow) (role : Str) : List RefRow :=
  rows.filter (fun r => containsSub (toLowerStr r.job_title) (toLowerStr role))

/-- `nlp_service.get_job_skills` under the literal-substring row
selection (see `matchingRows`): resolve a role name to the union of the
matching rows' technical and soft skills plus the synthetic reference
text; `([], [], "")` when no row matches.  The regex-faithful version of
the same function is `get_job_skills_re`. -/
def get_job_skills (rows : List RefRow) (role : Str) : List Str × List Str × Str :=
  let filtered := matchingRows rows role
  if filtered = [] then ([], [], [])
  else
    let tech := sortedSet (filtered.flatMap (fun r => cleanTokens r.technical_skills))
    let soft := sortedSet (filtered.flatMap (fun r => cleanTokens r.soft_skills))
    (tech, soft, joinSpace (tech ++ soft))

/-- `app.get_job_skills` (legacy asset): same as the server resolver but
with the asset token rule, which keeps empty tokens. -/
def get_job_skills_asset (rows : List RefRow) (role : Str) :
    List Str × List Str × Str :=
  let filtered := matchingRows rows role
  if filtered = [] then ([], [], [])
  else
    let tech := sortedSet (filtered.flatMap (fun r => cleanTokensAsset r.technical_skills))
    let soft := sortedSet (filtered.flatMap (fun r => cleanTokensAsset r.soft_skills))
    (tech, soft, joinSpace (tech ++ soft))

/-- `extract_skills_from_text` (identical in both files): keep the skills
whose lower-cased form occurs as a substring of the text *as given* (the
text itself is not lower-cased here; both call sites pass already
lower-cased text), then `sorted(set(found))`. -/
def extract_skills_from_text (text : Str) (skills : List Str) : List Str :=
  sortedSet (skills.filter (fun sk => containsSub text (toLowerStr sk)))

/-- `get_all_skills` (identical in both files): all distinct cleaned
tokens of each skill column over the whole dataset, with the empty token
discarded afterwards (`tech_skills.discard("")`), sorted. -/
def get_all_skills (rows : List RefRow) : List Str × List Str :=
  (sortedSet ((rows.flatMap (fun r => cleanTokensAsset r.technical_skills)).filter
      (fun s => s ≠ [])),
   sortedSet ((rows.flatMap (fun r => cleanTokensAsset r.soft_skills)).filter
      (fun s => s ≠ [])))

/-- Base importance score of one skill against the (already lower-cased)
description, from the first loop of `analyze_jd` /
`extract_mandatory_skills`: exact non-overlapping occurrence count of the
lower-cased skill; else 0.05 per occurrence of each whitespace-delimited
word of the skill; clamped above by 1. -/
def baseScore (dl skill : Str) : ℚ :=
  let sl := toLowerStr skill
  let exact := countOcc dl sl
  let wordMatches := ((splitWs sl).map (fun w => countOcc dl w)).sum
  let score : ℚ := if 0 < exact then 7/10 + (exact : ℚ) * (1/10) else (wordMatches : ℚ) * (5/100)
  min score 1

/-- Context window around the first occurrence of the (lower-cased) skill:
`dl[max(0, idx-50) : min(len(dl), idx+len(skill)+50)]`.  Only evaluated
under a successful containment test, so the `none` branch is dead code. -/
def contextWindow (dl sl : Str) : Str :=
  match firstIdx dl sl with
  | none => []
  | some idx => sliceStr dl (idx - 50) (min dl.length (idx + sl.length + 50))

/-- Inner keyword loop with `break`: the factor of the first table entry
whose keyword occurs in the context, if any. -/
def findBoost : List (Str × ℚ) → Str → Option ℚ
  | [], _ => none
  | (k, v) :: rest, ctx => if containsSub ctx k then some v else findBoost rest ctx

/-- One iteration of the boost loop: if the skill occurs in the
description, multiply its current dictionary entry by the first matching
keyword factor and re-clamp at 1; otherwise leave the dictionary
unchanged.  The score dictionary is modelled as a total function. -/
def boostStep (dl : Str) (kw : List (Str × ℚ)) (g : Str → ℚ) (skill : Str) : Str → ℚ :=
  let sl := toLowerStr skill
  if containsSub dl sl then
    match findBoost kw (contextWindow dl sl) with
    | some v => Function.update g skill (min (g skill * v) 1)
    | none => g
  else g

/-- The whole boost loop (`for skill in all_skills: ...`), a left fold of
`boostStep` over the concatenated vocabulary. -/
def boostPass (dl : Str) (kw : List (Str × ℚ)) (skills : List Str) (g : Str → ℚ) :
    Str → ℚ :=
  skills.foldl (boostStep dl kw) g

/-- Final score dictionary of the Importance Scorer: base scores for every
skill, then the boost pass over the concatenated vocabulary
`all_skills = all_tech + all_soft`. -/
def scoreDict (tech soft : List Str) (desc : Str) (kw : List (Str × ℚ)) : Str → ℚ :=
  let dl := toLowerStr desc
  boostPass dl kw (tech ++ soft) (fun s => baseScore dl s)

/-- Filter-and-categorise loop: keep skills with
`score >= threshold * 0.5`, sending a kept skill to the technical list
when it is a member of the technical vocabulary and to the soft list
otherwise, in vocabulary iteration order. -/
def filterPartition (tech : List Str) (g : Str → ℚ) (thr : ℚ) :
    List Str → List (Str × ℚ) × List (Str × ℚ)
  | [] => ([], [])
  | s :: rest =>
    let p := filterPartition tech g thr rest
    if thr * (1/2) ≤ g s then
      if s ∈ tech then ((s, g s) :: p.1, p.2) else (p.1, (s, g s) :: p.2)
    else p

/-- Descending-score sort relation used by `list.sort(key=score,
reverse=True)`; ties are broken stably by the sort itself. -/
def scoreGe (a b : Str × ℚ) : Prop := b.2 ≤ a.2

instance : DecidableRel scoreGe := fun a b => inferInstanceAs (Decidable (b.2 ≤ a.2))

instance : IsTotal (Str × ℚ) scoreGe := ⟨fun a b => le_total b.2 a.2⟩

instance : IsTrans (Str × ℚ) scoreGe := ⟨fun _ _ _ h1 h2 => le_trans h2 h1⟩

/-- Boost applied exactly once, the per-skill behaviour the specification
describes: when the skill occurs in the description, the score is
multiplied by the factor of the first matching keyword of the table (if
any) and re-clamped at 1; otherwise it is unchanged.  Stated separately so
that theorems can compare the looped dictionary (`scoreDict`) against
single-boost semantics. -/
def singleBoost (dl : Str) (kw : List (Str × ℚ)) (x : ℚ) (s : Str) : ℚ :=
  if containsSub dl (toLowerStr s) then
    match findBoost kw (contextWindow dl (toLowerStr s)) with
    | some v => min (x * v) 1
    | none => x
  else x

/-- Shared scoring pipeline of `analyze_jd` and
`extract_mandatory_skills` (their bodies are line-identical apart from the
keyword table): score, boost, filter, and sort both lists by descending
score (Python's sort is stable; insertion sort is the matching stable
sort). -/
def rankSkills (tech soft : List Str) (desc : Str) (kw : List (Str × ℚ)) (thr : ℚ) :
    List (Str × ℚ) × List (Str × ℚ) :=
  let g := scoreDict tech soft desc kw
  let p := filterPartition tech g thr (tech ++ soft)
  (List.insertionSort scoreGe p.1, List.insertionSort scoreGe p.2)

/-- The reduced 3-entry keyword table of `nlp_service.analyze_jd`, in
dictionary insertion order. -/
def service_keywords : List (Str × ℚ) :=
  [(chars (r"required"), 12/10), (chars (r"must have"), 13/10),
   (chars (r"mandatory"), 14/10)]

/-- The full 8-entry keyword table of `app.extract_mandatory_skills`, in
dictionary insertion order. -/
def importance_keywords : List (Str × ℚ) :=
  [(chars (r"required"), 12/10), (chars (r"must have"), 13/10),
   (chars (r"mandatory"), 14/10), (chars (r"essential"), 12/10),
   (chars (r"critical"), 13/10), (chars (r"preferred"), 8/10),
   (chars (r"nice to have"), 6/10), (chars (r"optional"), 5/10)]

/-- `nlp_service.analyze_jd` (JSON shell stripped): rejects only an empty
description (`if not job_description: 400`, modelled as `none`); there is
no degenerate-length short-circuit and no threshold validation — the
threshold is used as given. -/
def analyze_jd (rows : List RefRow) (desc : Str) (thr : ℚ) :
    Option (List (Str × ℚ) × List (Str × ℚ)) :=
  if desc = [] then none
  else
    some (rankSkills (get_all_skills rows).1 (get_all_skills rows).2 desc
      service_keywords thr)

/-- `app.extract_mandatory_skills`: short-circuits to two empty lists when
the description is empty or shorter than 10 characters after stripping
leading/trailing whitespace
(`if not job_description or len(job_description.strip()) < 10`), else runs
the shared pipeline with the full keyword table. -/
def extract_mandatory_skills (rows : List RefRow) (desc : Str) (thr : ℚ) :
    List (Str × ℚ) × List (Str × ℚ) :=
  if desc = [] ∨ (stripStr desc).length < 10 then ([], [])
  else
    rankSkills (get_all_skills rows).1 (get_all_skills rows).2 desc
      importance_keywords thr

/-- Error signalled by the resume route when the role resolves to no
reference text (`return jsonify({"error": "Job role not found ..."}), 404`). -/
inductive ScreenError where
  | roleNotFound
  deriving DecidableEq

/-- Response shape of `analyze_resume` (the static `recommendation`
string is omitted; `matchScore` keeps the exact rational similarity ×100,
abstracting the 2-decimal float rounding of `round(score * 100, 2)`). -/
structure MatchReport where
  matchScore : ℚ
  techSkillsFound : List Str
  softSkillsFound : List Str
  missingTechSkills : List Str
  missingSoftSkills : List Str
  deriving DecidableEq

/-- `nlp_service.analyze_resume` (file handling stripped) under the
literal-substring row selection: resolve the role, fail with 404 when the
reference text is empty, otherwise match skills, compute the missing sets
(`sorted(set(role) - set(found))`), and attach the similarity score.  The
embedding computation (BERT encode or TF-IDF, a float-valued external
capability) is abstracted as the `sim` parameter.  The regex-faithful
route, including the catch-all 500 branch, is `analyze_resume_re`. -/
def analyze_resume (sim : Str → Str → ℚ) (rows : List RefRow)
    (resume_text job_role : Str) : Except ScreenError MatchReport :=
  let res := get_job_skills rows job_role
  if res.2.2 = [] then .error .roleNotFound
  else
    let resume_tech := extract_skills_from_text resume_text res.1
    let resume_soft := extract_skills_from_text resume_text res.2.1
    let missing_tech := sortedSet (res.1.filter (fun s => s ∉ resume_tech))
    let missing_soft := sortedSet (res.2.1.filter (fun s => s ∉ resume_soft))
    .ok ⟨sim resume_text res.2.2 * 100, resume_tech, resume_soft,
      missing_tech, missing_soft⟩

/-- One word-character in the sense of sklearn's default token pattern
`\b\w\w+\b`. -/
def isWordChar (c : Char) : Bool := c.isAlphanum || c = '_'

/-- sklearn `CountVectorizer` tokenisation: lower-case, then keep maximal
runs of word characters of length at least two. -/
def tokenize (t : Str) : List Str :=
  (List.splitOnP (fun c => !isWordChar c) (toLowerStr t)).filter
    (fun w => 2 ≤ w.length)

/-- Vocabulary the TF-IDF fallback fits over the two request texts after
stop-word removal (`TfidfVectorizer(stop_words='english')`; the concrete
English stop-word list is a fixed data set inside sklearn, abstracted as
the `stop` parameter). -/
def tfidf_vocab (stop : List Str) (a b : Str) : List Str :=
  (((tokenize a).filter (fun t => t ∉ stop)) ++
    ((tokenize b).filter (fun t => t ∉ stop))).dedup

/-- The sparse fallback similarity path of `analyze_resume`:
`TfidfVectorizer.fit_transform([a, b])` raises `ValueError` ("empty
vocabulary") when no token survives, which the route's catch-all turns
into a 500 failure (modelled as `Except.error`); otherwise a cosine score
is produced.  The numeric tf-idf weighting and cosine (floating point,
natural logarithms and square roots) are abstracted as the `kernel`
parameter — the claims settled here depend only on the raise behaviour,
which is decided purely by tokenisation. -/
def sparse_similarity (kernel : List Str → Str → Str → ℚ) (stop : List Str)
    (a b : Str) : Except Unit ℚ :=
  if tfidf_vocab stop a b = [] then .error ()
  else .ok (kernel (tfidf_vocab stop a b) a b)

instance {ε α : Type} [DecidableEq ε] [DecidableEq α] : DecidableEq (Except ε α) := fun
  | .error e, .error e' =>
    if h : e = e' then .isTrue (by rw [h]) else .isFalse (by intro hc; cases hc; exact h rfl)
  | .error _, .ok _ => .isFalse (by intro hc; cases hc)
  | .ok _, .error _ => .isFalse (by intro hc; cases hc)
  | .ok a, .ok a' =>
    if h : a = a' then .isTrue (by rw [h]) else .isFalse (by intro hc; cases hc; exact h rfl)

/-- Failure modes of the resume route as seen by its caller: any
exception inside the handler is converted by the route's catch-all
`except` into a 500 response (`serverError`), while an unresolvable role
is reported as the recoverable 404 (`roleNotFound`). -/
inductive RouteFailure where
  | serverError
  | roleNotFound
  deriving DecidableEq

/-- `nlp_service.get_job_skills` with the pandas row filter modelled
faithfully: `df["job_title"].str.contains(job_role)` (pandas default
`regex=True`) compiles the lower-cased role as a regular-expression
pattern once, then keeps the rows whose title the compiled pattern
matches.  The external `re` engine is abstracted as the capability
`recompile`: `recompile pat` is `.error ()` when `re.compile(pat)` raises
`re.error` (e.g. the invalid pattern "c++" — "multiple repeat"), and
otherwise `.ok hit` where `hit hay` decides `re.search(pat, hay) is not
None`; for a pattern without regex metacharacters the documented
behaviour of `hit` is literal substring search
(`get_job_skills_re_literal`).  A raise propagates out of the whole
filtering call. -/
def get_job_skills_re (recompile : Str → Except Unit (Str → Bool))
    (rows : List RefRow) (role : Str) :
    Except Unit (List Str × List Str × Str) :=
  match recompile (toLowerStr role) with
  | .error e => .error e
  | .ok hit =>
    let filtered := rows.filter (fun r => hit (toLowerStr r.job_title))
    if filtered = [] then .ok ([], [], [])
    else
      .ok (sortedSet (filtered.flatMap (fun r => cleanTokens r.technical_skills)),
        sortedSet (filtered.flatMap (fun r => cleanTokens r.soft_skills)),
        joinSpace
          (sortedSet (filtered.flatMap (fun r => cleanTokens r.technical_skills)) ++
           sortedSet (filtered.flatMap (fun r => cleanTokens r.soft_skills))))

/-- `nlp_service.analyze_resume` over the regex-faithful resolver: an
`re.error` escaping `get_job_skills` is converted by the route's
catch-all into the 500 `serverError`; an empty reference text is the 404
`roleNotFound`; otherwise the report is produced as in
`analyze_resume`. -/
def analyze_resume_re (sim : Str → Str → ℚ)
    (recompile : Str → Except Unit (Str → Bool)) (rows : List RefRow)
    (resume_text job_role : Str) : Except RouteFailure MatchReport :=
  match get_job_skills_re recompile rows job_role with
  | .error _ => .error .serverError
  | .ok res =>
    if res.2.2 = [] then .error .roleNotFound
    else
      let resume_tech := extract_skills_from_text resume_text res.1
      let resume_soft := extract_skills_from_text resume_text res.2.1
      let missing_tech := sortedSet (res.1.filter (fun s => s ∉ resume_tech))
      let missing_soft := sortedSet (res.2.1.filter (fun s => s ∉ resume_soft))
      .ok ⟨sim resume_text res.2.2 * 100, resume_tech, resume_soft,
        missing_tech, missing_soft⟩

/-- Sample one-row reference dataset used for concrete witnesses. -/
def sampleRows : List RefRow :=
  [⟨chars (r"data scientist"), chars (r"python"), chars (r"teamwork")⟩]

theorem mem_sortedSet {l : List Str} {x : Str} : x ∈ sortedSet l ↔ x ∈ l := by
  simp [sortedSet, List.mem_insertionSort, List.mem_dedup]

theorem nodup_sortedSet (l : List Str) : (sortedSet l).Nodup :=
  ((List.perm_insertionSort strLeR l.dedup).nodup_iff).mpr l.nodup_dedup

theorem sorted_sortedSet (l : List Str) : List.Sorted strLeR (sortedSet l) :=
  List.sorted_insertionSort strLeR _

theorem boostStep_apply_ne (dl : Str) (kw : List (Str × ℚ)) (g : Str → ℚ)
    (a s : Str) (h : a ≠ s) : boostStep dl kw g a s = g s := by
  simp only [boostStep]
  split
  · cases hf : findBoost kw (contextWindow dl (toLowerStr a)) with
    | none => simp only [hf]
    | some v =>
      simp only [hf]
      exact Function.update_noteq (Ne.symm h) _ g
  · rfl

theorem boostStep_apply_self (dl : Str) (kw : List (Str × ℚ)) (g : Str → ℚ)
    (s : Str) : boostStep dl kw g s s = singleBoost dl kw (g s) s := by
  simp only [boostStep, singleBoost]
  split
  · cases hf : findBoost kw (contextWindow dl (toLowerStr s)) with
    | none => simp only [hf]
    | some v =>
      simp only [hf]
      exact Function.update_same s _ g
  · rfl

theorem boostPass_cons (dl : Str) (kw : List (Str × ℚ)) (a : Str) (l : List Str)
    (g : Str → ℚ) :
    boostPass dl kw (a :: l) g = boostPass dl kw l (boostStep dl kw g a) := rfl

theorem boostPass_not_mem (dl : Str) (kw : List (Str × ℚ)) (l : List Str)
    (g : Str → ℚ) (s : Str) (h : s ∉ l) : boostPass dl kw l g s = g s := by
  induction l generalizing g with
  | nil => rfl
  | cons a t ih =>
    rw [boostPass_cons, ih _ (fun hm => h (List.mem_cons_of_mem a hm))]
    exact boostStep_apply_ne dl kw g a s (fun he => h (he ▸ List.mem_cons_self a t))

theorem boostPass_append (dl : Str) (kw : List (Str × ℚ)) (l₁ l₂ : List Str)
    (g : Str → ℚ) :
    boostPass dl kw (l₁ ++ l₂) g = boostPass dl kw l₂ (boostPass dl kw l₁ g) := by
  simp [boostPass, List.foldl_append]

theorem filterPartition_mem_fst {tech : List Str} {g : Str → ℚ} {thr : ℚ}
    {l : List Str} {s : Str} {sc : ℚ} :
    (s, sc) ∈ (filterPartition tech g thr l).1 ↔
      s ∈ l ∧ s ∈ tech ∧ sc = g s ∧ thr * (1/2) ≤ g s := by
  induction l with
  | nil => simp [filterPartition]
  | cons a t ih =>
    simp only [filterPartition]
    by_cases hpass : thr * (1/2) ≤ g a
    · by_cases htech : a ∈ tech
      · rw [if_pos hpass, if_pos htech]
        simp only [List.mem_cons, Prod.mk.injEq, ih]
        constructor
        · rintro (⟨rfl, rfl⟩ | ⟨hm, ht, rfl, hp⟩)
          · exact ⟨Or.inl rfl, htech, rfl, hpass⟩
          · exact ⟨Or.inr hm, ht, rfl, hp⟩
        · rintro ⟨rfl | hm, ht, rfl, hp⟩
          · exact Or.inl ⟨rfl, rfl⟩
          · exact Or.inr ⟨hm, ht, rfl, hp⟩
      · rw [if_pos hpass, if_neg htech]
        simp only [List.mem_cons, ih]
        constructor
        · rintro ⟨hm, ht, rfl, hp⟩
          exact ⟨Or.inr hm, ht, rfl, hp⟩
        · rintro ⟨rfl | hm, ht, rfl, hp⟩
          · exact absurd ht htech
          · exact ⟨hm, ht, rfl, hp⟩
    · rw [if_neg hpass]
      simp only [List.mem_cons, ih]
      constructor
      · rintro ⟨hm, ht, rfl, hp⟩
        exact ⟨Or.inr hm, ht, rfl, hp⟩
      · rintro ⟨rfl | hm, ht, rfl, hp⟩
        · exact absurd hp hpass
        · exact ⟨hm, ht, rfl, hp⟩

theorem filterPartition_mem_snd {tech : List Str} {g : Str → ℚ} {thr : ℚ}
    {l : List Str} {s : Str} {sc : ℚ} :
    (s, sc) ∈ (filterPartition tech g thr l).2 ↔
      s ∈ l ∧ s ∉ tech ∧ sc = g s ∧ thr * (1/2) ≤ g s := by
  induction l with
  | nil => simp [filterPartition]
  | cons a t ih =>
    simp only [filterPartition]
    by_cases hpass : thr * (1/2) ≤ g a
    · by_cases htech : a ∈ tech
      · rw [if_pos hpass, if_pos htech]
        simp only [List.mem_cons, ih]
        constructor
        · rintro ⟨hm, ht, rfl, hp⟩
          exact ⟨Or.inr hm, ht, rfl, hp⟩
        · rintro ⟨rfl | hm, ht, rfl, hp⟩
          · exact absurd htech ht
          · exact ⟨hm, ht, rfl, hp⟩
      · rw [if_pos hpass, if_neg htech]
        simp only [List.mem_cons, Prod.mk.injEq, ih]
        constructor
        · rintro (⟨rfl, rfl⟩ | ⟨hm, ht, rfl, hp⟩)
          · exact ⟨Or.inl rfl, htech, rfl, hpass⟩
          · exact ⟨Or.inr hm, ht, rfl, hp⟩
        · rintro ⟨rfl | hm, ht, rfl, hp⟩
          · exact Or.inl ⟨rfl, rfl⟩
          · exact Or.inr ⟨hm, ht, rfl, hp⟩
    · rw [if_neg hpass]
      simp only [List.mem_cons, ih]
      constructor
      · rintro ⟨hm, ht, rfl, hp⟩
        exact ⟨Or.inr hm, ht, rfl, hp⟩
      · rintro ⟨rfl | hm, ht, rfl, hp⟩
        · exact absurd hp hpass
        · exact ⟨hm, ht, rfl, hp⟩

theorem filterPartition_count_fst (tech : List Str) (g : Str → ℚ) (thr : ℚ)
    (l : List Str) (s : Str) :
    (filterPartition tech g thr l).1.count (s, g s)
      = if s ∈ tech ∧ thr * (1/2) ≤ g s then l.count s else 0 := by
  induction l with
  | nil => simp [filterPartition]
  | cons a t ih =>
    simp only [filterPartition]
    by_cases hpass : thr * (1/2) ≤ g a
    · by_cases htech : a ∈ tech
      · rw [if_pos hpass, if_pos htech]
        by_cases has : a = s
        · subst has
          rw [List.count_cons_self, List.count_cons_self, ih,
            if_pos ⟨htech, hpass⟩, if_pos ⟨htech, hpass⟩]
        · rw [List.count_cons_of_ne (fun hc => has (congrArg Prod.fst hc).symm),
            List.count_cons_of_ne (fun hc => has hc.symm), ih]
      · rw [if_pos hpass, if_neg htech]
        by_cases has : a = s
        · subst has
          rw [ih, if_neg (fun hc => htech hc.1), if_neg (fun hc => htech hc.1)]
        · rw [List.count_cons_of_ne (fun hc => has hc.symm), ih]
    · rw [if_neg hpass]
      by_cases has : a = s
      · subst has
        rw [ih, if_neg (fun hc => hpass hc.2), if_neg (fun hc => hpass hc.2)]
      · rw [List.count_cons_of_ne (fun hc => has hc.symm), ih]

theorem rankSkills_mem_fst {tech soft : List Str} {desc : Str}
    {kw : List (Str × ℚ)} {thr : ℚ} {s : Str} {sc : ℚ} :
    (s, sc) ∈ (rankSkills tech soft desc kw thr).1 ↔
      s ∈ tech ++ soft ∧ s ∈ tech ∧ sc = scoreDict tech soft desc kw s ∧
        thr * (1/2) ≤ scoreDict tech soft desc kw s := by
  simp only [rankSkills]
  rw [List.mem_insertionSort]
  exact filterPartition_mem_fst

theorem rankSkills_mem_snd {tech soft : List Str} {desc : Str}
    {kw : List (Str × ℚ)} {thr : ℚ} {s : Str} {sc : ℚ} :
    (s, sc) ∈ (rankSkills tech soft desc kw thr).2 ↔
      s ∈ tech ++ soft ∧ s ∉ tech ∧ sc = scoreDict tech soft desc kw s ∧
        thr * (1/2) ≤ scoreDict tech soft desc kw s := by
  simp only [rankSkills]
  rw [List.mem_insertionSort]
  exact filterPartition_mem_snd

/-- C1: for every skill and description, the base score is
`0.7 + 0.1 * exactCount` when the exact (non-overlapping) occurrence count
of the skill in the lower-cased text is positive, and
`0.05 * wordMatches` (the summed occurrence counts of the skill's
whitespace-delimited words) otherwise, clamped so that it always lies in
`[0, 1]`. -/
theorem claim1_base_score (desc skill : Str) :
    (0 < countOcc (toLowerStr desc) (toLowerStr skill) →
      baseScore (toLowerStr desc) skill
        = min ((7 : ℚ)/10 + (countOcc (toLowerStr desc) (toLowerStr skill) : ℚ) * (1/10)) 1) ∧
    (countOcc (toLowerStr desc) (toLowerStr skill) = 0 →
      baseScore (toLowerStr desc) skill
        = min (((((splitWs (toLowerStr skill)).map
            (fun w => countOcc (toLowerStr desc) w)).sum : ℕ) : ℚ) * (5/100)) 1) ∧
    0 ≤ baseScore (toLowerStr desc) skill ∧ baseScore (toLowerStr desc) skill ≤ 1 := by
  refine ⟨fun h => ?_, fun h => ?_, ?_, ?_⟩
  · simp only [baseScore]
    rw [if_pos h]
  · simp only [baseScore]
    rw [if_neg (by omega)]
  · simp only [baseScore]
    refine le_min ?_ zero_le_one
    split
    · positivity
    · positivity
  · exact min_le_right _ _

/-- Witness for C1 at the description "python and python" and skill
"python": two exact occurrences give base score `0.9`. -/
theorem claim1_base_score_witness :
    0 < countOcc (toLowerStr (chars (r"python and python"))) (toLowerStr (chars (r"python"))) ∧
    baseScore (toLowerStr (chars (r"python and python"))) (chars (r"python")) = 9/10 := by
  refine ⟨by decide, ?_⟩
  rw [(claim1_base_score (chars (r"python and python")) (chars (r"python"))).1 (by decide)]
  rw [show countOcc (toLowerStr (chars (r"python and python")))
      (toLowerStr (chars (r"python"))) = 2 from by decide]
  rw [min_eq_left (by norm_num)]
  norm_num

unseal Rat.mul Rat.inv Rat.add Rat.sub in
/-- C2 counterexample: with the vocabulary skill "python" present in both
the technical and the soft set and the description "python required", the
boost loop multiplies the score by the matching factor 1.2 once per
occurrence of the skill in the concatenated vocabulary — the final
dictionary value is `min(0.8·1.2·1.2, 1) = 1`, not the single-boost value
`0.8·1.2 = 0.96` the claim requires. -/
theorem claim2_double_boost_counterexample :
    scoreDict [chars (r"python")] [chars (r"python")] (chars (r"python required"))
        service_keywords (chars (r"python")) = 1 ∧
    singleBoost (toLowerStr (chars (r"python required"))) service_keywords
        (baseScore (toLowerStr (chars (r"python required"))) (chars (r"python")))
        (chars (r"python")) = 24/25 ∧
    (1 : ℚ) ≠ 24/25 :=
  ⟨by decide, by decide, by decide⟩

/-- C2 (amended): for a skill that occurs exactly once in the concatenated
vocabulary (in particular, any skill belonging to exactly one of the two
disjoint vocabulary sets), the final dictionary value equals the base score
boosted at most once: if the skill occurs in the lower-cased description,
the score is multiplied by the factor of the first keyword (in table
order) found in the 50-character window around the skill's first
occurrence and re-clamped to `[0,1]`, and no further boost is applied;
skills not occurring in the text receive no boost.  A skill listed in both
vocabulary sets is instead boosted once per occurrence (see the
counterexample). -/
theorem claim2_single_boost_amended (tech soft : List Str) (desc : Str)
    (kw : List (Str × ℚ)) (s : Str) (h : (tech ++ soft).count s = 1) :
    scoreDict tech soft desc kw s
      = singleBoost (toLowerStr desc) kw (baseScore (toLowerStr desc) s) s := by
  have hmem : s ∈ tech ++ soft := by
    by_contra hc
    rw [List.count_eq_zero_of_not_mem hc] at h
    exact absurd h (by omega)
  obtain ⟨l₁, l₂, hsplit⟩ := List.append_of_mem hmem
  have hcnt : (l₁ ++ s :: l₂).count s = 1 := hsplit ▸ h
  rw [List.count_append, List.count_cons_self] at hcnt
  have hl₁ : s ∉ l₁ := List.count_eq_zero.mp (by omega)
  have hl₂ : s ∉ l₂ := List.count_eq_zero.mp (by omega)
  simp only [scoreDict, hsplit]
  rw [boostPass_append, boostPass_cons,
    boostPass_not_mem _ _ _ _ _ hl₂, boostStep_apply_self,
    boostPass_not_mem _ _ _ _ _ hl₁]

/-- Witness for C2 (amended): "python" occurs once in the concatenated
vocabulary `["python"] ++ ["teamwork"]`, and its dictionary value on
"python is required" equals the single-boost value. -/
theorem claim2_single_boost_amended_witness :
    (([chars (r"python")] ++ [chars (r"teamwork")] : List Str).count (chars (r"python")) = 1) ∧
    scoreDict [chars (r"python")] [chars (r"teamwork")] (chars (r"python is required"))
        service_keywords (chars (r"python"))
      = singleBoost (toLowerStr (chars (r"python is required"))) service_keywords
          (baseScore (toLowerStr (chars (r"python is required"))) (chars (r"python")))
          (chars (r"python")) :=
  ⟨by decide, claim2_single_boost_amended [chars (r"python")] [chars (r"teamwork")]
    (chars (r"python is required")) service_keywords (chars (r"python")) (by decide)⟩

/-- C3: a scored skill appears in the Importance Scorer's output (either
ranked list) exactly when the skill is in the concatenated vocabulary and
its final (post-boost) dictionary score is at least `threshold * 0.5` —
the effective cutoff is half the requested threshold. -/
theorem claim3_filter_cutoff (tech soft : List Str) (desc : Str)
    (kw : List (Str × ℚ)) (thr : ℚ) (s : Str) (sc : ℚ) :
    ((s, sc) ∈ (rankSkills tech soft desc kw thr).1 ∨
        (s, sc) ∈ (rankSkills tech soft desc kw thr).2)
      ↔ s ∈ tech ++ soft ∧ sc = scoreDict tech soft desc kw s ∧
          thr * (1/2) ≤ sc := by
  rw [rankSkills_mem_fst, rankSkills_mem_snd]
  constructor
  · rintro (⟨hm, _, rfl, hp⟩ | ⟨hm, _, rfl, hp⟩) <;> exact ⟨hm, rfl, hp⟩
  · rintro ⟨hm, rfl, hp⟩
    by_cases ht : s ∈ tech
    · exact Or.inl ⟨hm, ht, rfl, hp⟩
    · exact Or.inr ⟨hm, ht, rfl, hp⟩

unseal Rat.mul Rat.inv Rat.add Rat.sub in
/-- C4 counterexample: the description "python" has fewer than 10
non-whitespace characters, yet the service entry point `analyze_jd` does
not short-circuit: it runs the scoring algorithm and returns a non-empty
technical list. -/
theorem claim4_short_desc_counterexample :
    ((chars (r"python")).filter (fun c => !c.isWhitespace)).length < 10 ∧
    analyze_jd sampleRows (chars (r"python")) (2/5)
      = some ([(chars (r"python"), 4/5)], []) :=
  ⟨by decide, by decide⟩

/-- C4 (amended): only the interactive entry point short-circuits —
`extract_mandatory_skills` returns two empty lists whenever the
description is empty or shorter than 10 characters after trimming only
leading and trailing whitespace; `analyze_jd` rejects exactly the empty
description and otherwise runs the full algorithm regardless of length. -/
theorem claim4_short_circuit_amended (rows : List RefRow) (desc : Str) (thr : ℚ) :
    ((stripStr desc).length < 10 → extract_mandatory_skills rows desc thr = ([], [])) ∧
    analyze_jd rows [] thr = none ∧
    (desc ≠ [] →
      analyze_jd rows desc thr
        = some (rankSkills (get_all_skills rows).1 (get_all_skills rows).2 desc
            service_keywords thr)) := by
  refine ⟨fun h => ?_, ?_, fun h => ?_⟩
  · simp only [extract_mandatory_skills]
    rw [if_pos (Or.inr h)]
  · simp [analyze_jd]
  · simp only [analyze_jd]
    rw [if_neg h]

/-- Witness for C4 (amended) at the three concrete instances: the short
description "a b" short-circuits the asset entry point, the empty
description is rejected by `analyze_jd`, and the non-empty "a b" runs the
pipeline at the service entry point. -/
theorem claim4_short_circuit_amended_witness :
    extract_mandatory_skills sampleRows (chars (r"a b")) (2/5) = ([], []) ∧
    analyze_jd sampleRows [] (2/5) = none ∧
    analyze_jd sampleRows (chars (r"a b")) (2/5)
      = some (rankSkills (get_all_skills sampleRows).1 (get_all_skills sampleRows).2
          (chars (r"a b")) service_keywords (2/5)) :=
  ⟨(claim4_short_circuit_amended sampleRows (chars (r"a b")) (2/5)).1 (by decide),
   (claim4_short_circuit_amended sampleRows (chars (r"a b")) (2/5)).2.1,
   (claim4_short_circuit_amended sampleRows (chars (r"a b")) (2/5)).2.2 (by decide)⟩

theorem mem_cleanTokens {raw : Str} {x : Str} :
    x ∈ cleanTokens raw ↔
      ∃ tk ∈ splitComma raw, stripStr tk ≠ [] ∧ x = toLowerStr (stripStr tk) := by
  simp only [cleanTokens, List.mem_map, List.mem_filter, decide_not,
    Bool.not_eq_eq_eq_not, Bool.not_true, decide_eq_false_iff_not]
  constructor
  · rintro ⟨tk, ⟨htk, hne⟩, rfl⟩
    exact ⟨tk, htk, hne, rfl⟩
  · rintro ⟨tk, htk, hne, rfl⟩
    exact ⟨tk, ⟨htk, hne⟩, rfl⟩

unseal Rat.mul Rat.inv Rat.add Rat.sub in
/-- C5 counterexample: on a matching row whose technical field is
"python," (trailing comma), the legacy asset resolver keeps the empty
token: its technical output is `["", "python"]` and the reference text
begins with a space — the claim requires empty tokens to be discarded. -/
theorem claim5_empty_token_counterexample :
    get_job_skills_asset
        [⟨chars (r"data scientist"), chars (r"python,"), chars (r"teamwork")⟩]
        (chars (r"data"))
      = ([[], chars (r"python")], [chars (r"teamwork")], chars (r" python teamwork")) ∧
    ([] : Str) ∈ (get_job_skills_asset
        [⟨chars (r"data scientist"), chars (r"python,"), chars (r"teamwork")⟩]
        (chars (r"data"))).1 :=
  ⟨by decide, by decide⟩

/-- C5 (amended): the server Role Skill Resolver (`get_job_skills` in
`nlp_service.py`) behaves exactly as claimed — it unions the matching
rows' raw fields split on commas, trims, lower-cases, discards empty
tokens, deduplicates, outputs the two lists sorted, and joins the sorted
technical list followed by the sorted soft list with single spaces into
the reference text.  The legacy asset copy (`app.get_job_skills`) differs
only in keeping empty tokens (see the counterexample). -/
theorem claim5_resolver_amended (rows : List RefRow) (role : Str) :
    (∀ x : Str, x ∈ (get_job_skills rows role).1 ↔
        ∃ r ∈ matchingRows rows role, ∃ tk ∈ splitComma r.technical_skills,
          stripStr tk ≠ [] ∧ x = toLowerStr (stripStr tk)) ∧
    (∀ x : Str, x ∈ (get_job_skills rows role).2.1 ↔
        ∃ r ∈ matchingRows rows role, ∃ tk ∈ splitComma r.soft_skills,
          stripStr tk ≠ [] ∧ x = toLowerStr (stripStr tk)) ∧
    (get_job_skills rows role).1.Nodup ∧
    (get_job_skills rows role).2.1.Nodup ∧
    List.Sorted strLeR (get_job_skills rows role).1 ∧
    List.Sorted strLeR (get_job_skills rows role).2.1 ∧
    (get_job_skills rows role).2.2
      = joinSpace ((get_job_skills rows role).1 ++ (get_job_skills rows role).2.1) := by
  by_cases hm : matchingRows rows role = []
  · simp only [get_job_skills, hm, if_pos rfl]
    refine ⟨fun x => ?_, fun x => ?_, List.nodup_nil, List.nodup_nil,
      List.sorted_nil, List.sorted_nil, rfl⟩
    · simp
    · simp
  · have h1 : get_job_skills rows role
        = (sortedSet ((matchingRows rows role).flatMap
            (fun r => cleanTokens r.technical_skills)),
          sortedSet ((matchingRows rows role).flatMap
            (fun r => cleanTokens r.soft_skills)),
          joinSpace
            (sortedSet ((matchingRows rows role).flatMap
              (fun r => cleanTokens r.technical_skills)) ++
             sortedSet ((matchingRows rows role).flatMap
              (fun r => cleanTokens r.soft_skills)))) := by
      simp only [get_job_skills]
      rw [if_neg hm]
    rw [h1]
    refine ⟨fun x => ?_, fun x => ?_, nodup_sortedSet _, nodup_sortedSet _,
      sorted_sortedSet _, sorted_sortedSet _, rfl⟩
    · rw [mem_sortedSet, List.mem_flatMap]
      exact exists_congr (fun r => and_congr_right (fun _ => mem_cleanTokens))
    · rw [mem_sortedSet, List.mem_flatMap]
      exact exists_congr (fun r => and_congr_right (fun _ => mem_cleanTokens))

theorem get_job_skills_re_literal (recompile : Str → Except Unit (Str → Bool))
    (rows : List RefRow) (role : Str)
    (h : recompile (toLowerStr role)
        = Except.ok (fun hay => containsSub hay (toLowerStr role))) :
    get_job_skills_re recompile rows role = Except.ok (get_job_skills rows role) := by
  by_cases hf : rows.filter
      (fun r => containsSub (toLowerStr r.job_title) (toLowerStr role)) = []
  · simp [get_job_skills_re, h, get_job_skills, matchingRows, hf]
  · simp [get_job_skills_re, h, get_job_skills, matchingRows, hf]

/-- C6 (code bug): the role name is handed to pandas `str.contains`
as a regular-expression pattern.  For a role whose pattern makes
`re.compile` raise — such as "c++", an invalid pattern ("multiple
repeat") that also occurs in no title as a literal substring — the
resolver raises instead of returning the empty result, and the screening
route answers with the catch-all 500 server error instead of the claimed
recoverable 404 role-not-found; this holds for every regex capability
consistent with that raise, even though the role matches zero rows in the
claim's substring sense. -/
theorem claim6_regex_error (sim : Str → Str → ℚ)
    (recompile : Str → Except Unit (Str → Bool)) (rows : List RefRow)
    (resume_text role : Str)
    (hre : recompile (toLowerStr role) = Except.error ())
    (hsub : ∀ r ∈ rows, containsSub (toLowerStr r.job_title) (toLowerStr role) = false) :
    matchingRows rows role = [] ∧
    get_job_skills_re recompile rows role = Except.error () ∧
    analyze_resume_re sim recompile rows resume_text role
      = Except.error RouteFailure.serverError ∧
    analyze_resume_re sim recompile rows resume_text role
      ≠ Except.error RouteFailure.roleNotFound := by
  have hm : matchingRows rows role = [] := by
    rw [matchingRows, List.filter_eq_nil_iff]
    intro r hr
    simp [hsub r hr]
  have hg : get_job_skills_re recompile rows role = Except.error () := by
    simp [get_job_skills_re, hre]
  refine ⟨hm, hg, ?_, ?_⟩
  · simp [analyze_resume_re, hg]
  · simp [analyze_resume_re, hg]

/-- Witness for C6's failing input: the role "c++" — an invalid regular
expression on which `re.compile` raises, and a literal substring of no
sample title — with a regex capability raising on that pattern: the
resolver errors and the route reports the catch-all 500 failure, not
role-not-found. -/
theorem claim6_regex_error_witness :
    matchingRows sampleRows (chars (r"c++")) = [] ∧
    get_job_skills_re (fun _ => Except.error ()) sampleRows (chars (r"c++"))
      = Except.error () ∧
    analyze_resume_re (fun _ _ => 0) (fun _ => Except.error ()) sampleRows
        (chars (r"i know python")) (chars (r"c++"))
      = Except.error RouteFailure.serverError ∧
    analyze_resume_re (fun _ _ => 0) (fun _ => Except.error ()) sampleRows
        (chars (r"i know python")) (chars (r"c++"))
      ≠ Except.error RouteFailure.roleNotFound :=
  claim6_regex_error (fun _ _ => 0) (fun _ => Except.error ()) sampleRows
    (chars (r"i know python")) (chars (r"c++")) rfl (by decide)

/-- C7 counterexample: on the upper-case text "PYTHON" the Skill Matcher
returns nothing for the skill "python", although the lower-cased skill
does occur in the lower-cased text — the matcher tests containment in the
text as given, not in the lower-cased text. -/
theorem claim7_case_counterexample :
    extract_skills_from_text (chars (r"PYTHON")) [chars (r"python")] = [] ∧
    containsSub (toLowerStr (chars (r"PYTHON"))) (toLowerStr (chars (r"python"))) = true :=
  ⟨by decide, by decide⟩

/-- C7 (amended): the Skill Matcher returns a sorted, deduplicated subset
of the input skill list, and a skill is in the result exactly when it is
in the input list and its lower-cased form occurs as a literal substring
of the text as given (both call sites pass already lower-cased text, for
which this coincides with the claim's lower-cased-text containment). -/
theorem claim7_matcher_amended (text : Str) (skills : List Str) :
    (∀ s : Str, s ∈ extract_skills_from_text text skills ↔
        s ∈ skills ∧ containsSub text (toLowerStr s) = true) ∧
    (extract_skills_from_text text skills).Nodup ∧
    List.Sorted strLeR (extract_skills_from_text text skills) := by
  refine ⟨fun s => ?_, nodup_sortedSet _, sorted_sortedSet _⟩
  rw [extract_skills_from_text, mem_sortedSet, List.mem_filter]

unseal Rat.mul Rat.inv Rat.add Rat.sub in
/-- C8 (code bug): `analyze_jd` performs no threshold validation — the
out-of-range threshold 3 is accepted and used in the filter (cutoff 1.5),
so the request succeeds with an ordinary (empty) result instead of being
rejected with an invalid-argument error; "python" scores 0.96 here and is
silently dropped by the inflated cutoff. -/
theorem claim8_no_threshold_validation :
    analyze_jd sampleRows (chars (r"python is required")) 3 = some ([], []) := by
  decide

/-- C9 (code bug): the similarity code has no empty-input guard.  Under
the sparse fallback strategy, two texts with no usable tokens make
`TfidfVectorizer.fit_transform` raise (empty vocabulary) — the request
fails instead of the score being defined as 0; this holds for every
tf-idf/cosine kernel and every stop-word list. -/
theorem claim9_sparse_empty_raises (kernel : List Str → Str → Str → ℚ)
    (stop : List Str) :
    sparse_similarity kernel stop [] [] = Except.error () := rfl

theorem perm_count_eq {α : Type _} [BEq α] {l₁ l₂ : List α} (h : l₁.Perm l₂)
    (a : α) : l₁.count a = l₂.count a := h.countP_eq _

theorem count_cons_beq {α : Type _} [BEq α] (a b : α) (l : List α) :
    (b :: l).count a = l.count a + if b == a then 1 else 0 :=
  List.countP_cons _ _ _

theorem nodup_count_eq_one {α : Type _} [BEq α] [LawfulBEq α] {l : List α}
    {a : α} (d : l.Nodup) (h : a ∈ l) : l.count a = 1 := by
  induction l with
  | nil => cases h
  | cons b t ih =>
    rw [count_cons_beq]
    rcases List.mem_cons.mp h with rfl | hm
    · rw [List.count_eq_zero_of_not_mem (List.nodup_cons.mp d).1]
      simp
    · rw [ih (List.nodup_cons.mp d).2 hm]
      have hne : ¬(b == a) = true := by
        intro hb
        exact (List.nodup_cons.mp d).1 ((eq_of_beq hb) ▸ hm)
      simp [hne]

/-- C10: a skill present in both the technical and the soft vocabulary is
iterated twice in the concatenated vocabulary; when its score passes the
filter it is counted twice in the technical ranked list and never appears
in the soft ranked list, because category membership is tested against the
technical set first. -/
theorem claim10_duplicate_skill (tech soft : List Str) (desc : Str)
    (kw : List (Str × ℚ)) (thr : ℚ) (s : Str)
    (htech : s ∈ tech) (hsoft : s ∈ soft) (hnt : tech.Nodup) (hns : soft.Nodup)
    (hpass : thr * (1/2) ≤ scoreDict tech soft desc kw s) :
    (tech ++ soft).count s = 2 ∧
    (rankSkills tech soft desc kw thr).1.count
        (s, scoreDict tech soft desc kw s) = 2 ∧
    s ∉ ((rankSkills tech soft desc kw thr).2.map Prod.fst) := by
  have hcnt : (tech ++ soft).count s = 2 := by
    rw [List.count_append, nodup_count_eq_one hnt htech,
      nodup_count_eq_one hns hsoft]
  refine ⟨hcnt, ?_, ?_⟩
  · show (rankSkills tech soft desc kw thr).1.count
        (s, scoreDict tech soft desc kw s) = 2
    simp only [rankSkills]
    rw [perm_count_eq (List.perm_insertionSort scoreGe _),
      filterPartition_count_fst, if_pos ⟨htech, hpass⟩, hcnt]
  · intro hmem
    obtain ⟨p, hp, hfst⟩ := List.mem_map.mp hmem
    obtain ⟨s', sc⟩ := p
    cases hfst
    exact absurd htech (rankSkills_mem_snd.mp hp).2.1

unseal Rat.mul Rat.inv Rat.add Rat.sub in
/-- Witness for C10: with "python" in both one-element vocabularies and
the description "python" (score 0.8, passing the 0.2 cutoff), the ranked
technical list contains the pair twice and the soft list does not mention
the skill. -/
theorem claim10_duplicate_skill_witness :
    (([chars (r"python")] ++ [chars (r"python")] : List Str).count
        (chars (r"python")) = 2) ∧
    (rankSkills [chars (r"python")] [chars (r"python")] (chars (r"python"))
          service_keywords (2/5)).1.count
        (chars (r"python"),
          scoreDict [chars (r"python")] [chars (r"python")] (chars (r"python"))
            service_keywords (chars (r"python"))) = 2 ∧
    (chars (r"python")) ∉ ((rankSkills [chars (r"python")] [chars (r"python")]
        (chars (r"python")) service_keywords (2/5)).2.map Prod.fst) :=
  claim10_duplicate_skill [chars (r"python")] [chars (r"python")]
    (chars (r"python")) service_keywords (2/5) (chars (r"python"))
    (by decide) (by decide) (by decide) (by decide) (by decide)

end SkillScout
